import Mathlib

/-!
Verification development for `Convert.py` (Video_Subtractions).

The repository applies OpenCV background subtraction to a batch of `.mp4`
videos: the orchestrator (`__main__`, lines 98-158) moves the originals into a
backup directory and submits one `convert_video` task per file to a process
pool; `convert_video` (lines 57-95) decodes the source, applies the chosen
subtractor frame by frame, masks each frame and writes it to a fresh output
file of the same name.

The development is a shallow embedding:

* frames, masks and the background subtractors are modelled abstractly
  (a subtractor is an arbitrary stateful machine whose `apply` may raise);
* `cv2.VideoCapture` is modelled by its documented behaviour: constructing a
  capture never raises; on an unopenable source, `read` immediately returns
  `ret = False` and metadata queries return 0;
* the orchestrator's filesystem effects (`mv` through a shell, `os.mkdir`)
  are modelled over a small path-set filesystem.
-/

namespace Convert

/-- A video frame, modelled as its pixel values (natural numbers) in
row-major order. -/
abbrev Frame := List Nat

/-- A foreground mask returned by a background subtractor: one value per
pixel, nonzero meaning foreground. -/
abbrev Mask := List Nat

/-- An OpenCV background subtractor (`cv2.createBackgroundSubtractorMOG2` /
`cv2.createBackgroundSubtractorKNN`, lines 62-65), modelled abstractly: a
stateful machine whose `apply` consumes one frame, updates the internal
background model and returns the foreground mask for that frame.  `apply`
may raise (modelled with `Except`), which covers mid-stream `cv2.error`s. -/
structure BGSub (S : Type) where
  init : S
  apply : S → Frame → Except String (S × Mask)

/-- Line 87, `cv2.bitwise_and(frame, frame, mask=fgMask)`: the destination
array is zero-initialised, and `frame[i] &&& frame[i]` is stored exactly at
the pixels where the mask is nonzero. -/
def bitwise_and_self (frame : Frame) (mask : Mask) : Frame :=
  List.zipWith (fun p m => if m ≠ 0 then p &&& p else 0) frame mask

/-- Specification-side description of masking: keep the pixel where the mask
is nonzero, zero elsewhere. -/
def maskRestrict (frame : Frame) (mask : Mask) : Frame :=
  List.zipWith (fun p m => if m ≠ 0 then p else 0) frame mask

theorem nat_and_self (n : Nat) : n &&& n = n := by
  apply Nat.eq_of_testBit_eq
  intro i
  simp [Nat.testBit_land]

theorem bitwise_and_self_eq (frame : Frame) (mask : Mask) :
    bitwise_and_self frame mask = maskRestrict frame mask := by
  simp [bitwise_and_self, maskRestrict, nat_and_self]

/-- A `cv2.VideoCapture` handle (line 60).  `opened` records whether the
source could be opened; `frames` are its decodable frames in decode order.
`cv2.VideoCapture` never raises on a missing or corrupt file — it returns an
unopened handle whose `read` immediately yields `ret = False`. -/
structure Capture where
  opened : Bool
  frames : List Frame
deriving DecidableEq

/-- The sequence of frames the `while True: ret, frame = cap.read()` loop
(lines 79-83) will observe before `ret` turns `False`. -/
def Capture.readAll (c : Capture) : List Frame :=
  if c.opened then c.frames else []

/-- Lines 62-65: the `if/elif` chain binds `subtractor` only for the two
recognised selector strings; any other selector leaves the name unbound. -/
def selectSubtractor {S : Type} (mog2 knn : BGSub S) (t : String) :
    Option (BGSub S) :=
  if t = "MOG2" then some mog2
  else if t = "KNN" then some knn
  else none

/-- The frame loop of lines 79-89 for a bound subtractor: each decoded frame
is passed to `subtractor.apply`, the masked frame is written, and an
exception from `apply` ends the loop.  Returns the frames written (in
order) together with the raised exception, if any. -/
def runLoop {S : Type} (f : S → Frame → Except String (S × Mask)) :
    S → List Frame → List Frame × Option String
  | _, [] => ([], none)
  | s, fr :: rest =>
    match f s fr with
    | .error e => ([], some e)
    | .ok (s2, m) =>
      let out := runLoop f s2 rest
      (bitwise_and_self fr m :: out.1, out.2)

/-- The whole `try` body's observable effect on the output stream
(lines 60-89): with no bound subtractor, the first iteration raises a
`NameError` at line 86 (so nothing is written); with a bound subtractor the
frame loop runs. -/
def loopResult {S : Type} (mog2 knn : BGSub S) (t : String) (cap : Capture) :
    List Frame × Option String :=
  match selectSubtractor mog2 knn t with
  | none =>
    match cap.readAll with
    | [] => ([], none)
    | _ :: _ => ([], some "NameError: name 'subtractor' is not defined")
  | some sub => runLoop sub.apply sub.init cap.readAll

/-- Observable outcome of one `convert_video` invocation. -/
structure ConvertResult where
  /-- Frames written to the `cv2.VideoWriter`, in order. -/
  written : List Frame
  /-- The `(file, error)` pair logged by the `except` clause (line 91), if an
  exception was raised in the `try` body. -/
  errorLog : Option (String × String)
  /-- Whether `cap.release()` (line 93) ran. -/
  capReleased : Bool
  /-- Whether `writer.release()` (line 94) ran. -/
  writerReleased : Bool
  /-- Whether an exception propagated out of `convert_video`. -/
  raised : Bool
  /-- Whether the `cv2.VideoWriter` (line 68) opened and created the output
  file: it does iff the dimensions/fps read from the capture are valid,
  i.e. iff the source opened. -/
  outputCreated : Bool
  /-- How many subtractor instances lines 62-65 created. -/
  subtractorsCreated : Nat
deriving DecidableEq

/-- Shallow embedding of `convert_video` (lines 57-95).  The bindings of
`cap` (line 60) and `writer` (line 68) always execute: in this model none of
lines 60-78 can raise (`cv2.VideoCapture`, `cap.get` and `cv2.VideoWriter`
are total, returning unopened handles/zero metadata on bad sources), so
every exception of the `try` body originates in the loop (lines 86-89),
after both names are bound.  Hence the `except` clause catches every raised
exception and logs it with the filename, and the `finally` clause's
`cap.release(); writer.release()` both succeed, so nothing propagates. -/
def convert_video {S : Type} (mog2 knn : BGSub S) (t file : String)
    (cap : Capture) : ConvertResult :=
  let lr := loopResult mog2 knn t cap
  { written := lr.1
    errorLog := lr.2.map fun e => (file, e)
    capReleased := true
    writerReleased := true
    raised := false
    outputCreated := cap.opened
    subtractorsCreated := if (selectSubtractor mog2 knn t).isSome then 1 else 0 }

/-- Specification-side mask sequence: the masks the chosen subtractor
produces when applied to the frames in decode order (truncated at the first
raising application). -/
def specMasks {S : Type} (f : S → Frame → Except String (S × Mask)) :
    S → List Frame → List Mask
  | _, [] => []
  | s, fr :: rest =>
    match f s fr with
    | .error _ => []
    | .ok (s2, m) => m :: specMasks f s2 rest

/-- The mask sequence of one `convert_video` invocation. -/
def convertMasks {S : Type} (mog2 knn : BGSub S) (t : String) (cap : Capture) :
    List Mask :=
  match selectSubtractor mog2 knn t with
  | none => []
  | some sub => specMasks sub.apply sub.init cap.readAll

theorem runLoop_ok {S : Type} (f : S → Frame → Except String (S × Mask)) :
    ∀ (s : S) (frames : List Frame), (runLoop f s frames).2 = none →
      (runLoop f s frames).1
          = List.zipWith maskRestrict frames (specMasks f s frames) ∧
        (specMasks f s frames).length = frames.length := by
  intro s frames
  induction frames generalizing s with
  | nil => intro _; simp [runLoop, specMasks]
  | cons fr rest ih =>
    intro h
    rcases hf : f s fr with e | p
    · simp [runLoop, hf] at h
    · obtain ⟨s2, m⟩ := p
      have h2 : (runLoop f s2 rest).2 = none := by
        simpa [runLoop, hf] using h
      obtain ⟨ih1, ih2⟩ := ih s2 h2
      constructor
      · simp [runLoop, specMasks, hf, ih1, bitwise_and_self_eq]
      · simp [specMasks, hf, ih2]

/-- Lines 150-157: the orchestrator submits `convert_video(subtractor, file,
dest_dir)` for each file to a `ProcessPoolExecutor(max_workers)`.  Tasks run
in separate processes and share no state; `max_workers` influences only the
scheduling of the independent tasks, never a task's arguments, so the batch
outcome is the per-file results. -/
def runBatch {S : Type} (mog2 knn : BGSub S) (t : String) (max_workers : Nat)
    (files : List (String × Capture)) : List (String × ConvertResult) :=
  let _ := max_workers
  files.map fun fc => (fc.1, convert_video mog2 knn t fc.1 fc.2)

/-- A concrete subtractor machine used to instantiate witnesses: its state
counts the frames seen, and the mask of the n-th frame is constantly
`n % 2`. -/
def demoSub : BGSub Nat :=
  { init := 0
    apply := fun s f => .ok (s + 1, f.map fun _ => s % 2) }

/-- A concrete subtractor machine whose first application raises. -/
def failSub : BGSub Nat :=
  { init := 0
    apply := fun _ _ => .error "cv2.error: bad frame" }

theorem loopResult_failSub :
    (loopResult demoSub failSub "KNN" ⟨true, [[7]]⟩).2
      = some "cv2.error: bad frame" := by decide

/-- C1: for every `convert_video` invocation that completes without error,
the output stream has exactly one frame per source frame, in decode order,
and each output frame is the source frame restricted to the pixels where
the subtractor's foreground mask is nonzero (pixels outside the mask
zeroed), the subtractor having been applied to the frames in decode
order (`specMasks` threads the subtractor state left-to-right). -/
theorem convert_video_output_frames {S : Type} (mog2 knn : BGSub S)
    (t file : String) (cap : Capture)
    (h : (convert_video mog2 knn t file cap).errorLog = none) :
    (convert_video mog2 knn t file cap).written.length = cap.readAll.length ∧
      (convert_video mog2 knn t file cap).written
        = List.zipWith maskRestrict cap.readAll (convertMasks mog2 knn t cap) := by
  have hcaught : (loopResult mog2 knn t cap).2 = none := by
    have := h
    simp only [convert_video, Option.map_eq_none'] at this
    exact this
  rcases hsel : selectSubtractor mog2 knn t with _ | sub
  · rcases hread : cap.readAll with _ | ⟨fr, rest⟩
    · simp [convert_video, loopResult, convertMasks, hsel, hread]
    · exfalso
      simp [loopResult, hsel, hread] at hcaught
  · have h2 : (runLoop sub.apply sub.init cap.readAll).2 = none := by
      simpa [loopResult, hsel] using hcaught
    obtain ⟨heq, hlen⟩ := runLoop_ok sub.apply sub.init cap.readAll h2
    constructor
    · simp [convert_video, loopResult, hsel, heq, hlen]
    · simp [convert_video, loopResult, convertMasks, hsel, heq]

theorem convert_video_output_frames_witness :
    (convert_video demoSub demoSub "MOG2" "a.mp4"
        ⟨true, [[3, 0], [1, 2]]⟩).errorLog = none ∧
      ((convert_video demoSub demoSub "MOG2" "a.mp4"
          ⟨true, [[3, 0], [1, 2]]⟩).written.length
          = (Capture.readAll ⟨true, [[3, 0], [1, 2]]⟩).length ∧
        (convert_video demoSub demoSub "MOG2" "a.mp4"
            ⟨true, [[3, 0], [1, 2]]⟩).written
          = List.zipWith maskRestrict (Capture.readAll ⟨true, [[3, 0], [1, 2]]⟩)
              (convertMasks demoSub demoSub "MOG2" ⟨true, [[3, 0], [1, 2]]⟩)) :=
  ⟨by decide,
   convert_video_output_frames demoSub demoSub "MOG2" "a.mp4"
     ⟨true, [[3, 0], [1, 2]]⟩ (by decide)⟩

/-- C3: on every exit path of `convert_video` — success or failure — both
the decoder and encoder handles are released by the unconditional `finally`
clause (lines 93-94) and no exception propagates; and the error log is
exactly the exception caught in the `try` body paired with the filename
(line 91): some exception is raised in the decode/subtract/mask/encode loop
iff that error, with the filename, is logged.  (Both handles are bound
before the loop, the only raise site, so the `finally` releases cannot
themselves fail.)  The concrete failing run
`convert_video demoSub failSub "KNN" file ⟨true, [[7]]⟩`, whose subtractor
raises on its first frame, instantiates the failure path. -/
theorem convert_video_catches_and_releases {S : Type} (mog2 knn : BGSub S)
    (t file : String) (cap : Capture) :
    (convert_video mog2 knn t file cap).capReleased = true ∧
      (convert_video mog2 knn t file cap).writerReleased = true ∧
      (convert_video mog2 knn t file cap).raised = false ∧
      (convert_video mog2 knn t file cap).errorLog
        = (loopResult mog2 knn t cap).2.map fun e => (file, e) :=
  ⟨rfl, rfl, rfl, rfl⟩

/-- C4, counterexample: on a source that cannot be opened for decoding
(`opened = false`), `convert_video` logs no error at all — contrary to the
claim that the task "fails by logging an error".  `cv2.VideoCapture` does
not raise on an unopenable file; the read loop simply ends at once, so the
`except` clause never fires. -/
theorem unopened_source_logs_no_error :
    (convert_video demoSub demoSub "MOG2" "c.mp4" ⟨false, [[1]]⟩).errorLog
        = none ∧
      (convert_video demoSub demoSub "MOG2" "c.mp4" ⟨false, [[1]]⟩).raised
        = false := by
  constructor <;> decide

/-- C4, amended: on a source that cannot be opened, the task completes
silently — nothing is raised, no error is logged, no frame is written, no
output file is created (the writer is opened with the capture's zero
dimensions and fails to open), and both handles are released; other tasks
are unaffected since each task is a function of its own arguments only. -/
theorem unopened_source_silent_empty_run {S : Type} (mog2 knn : BGSub S)
    (t file : String) (cap : Capture) (h : cap.opened = false) :
    (convert_video mog2 knn t file cap).errorLog = none ∧
      (convert_video mog2 knn t file cap).written = [] ∧
      (convert_video mog2 knn t file cap).outputCreated = false ∧
      (convert_video mog2 knn t file cap).raised = false ∧
      (convert_video mog2 knn t file cap).capReleased = true ∧
      (convert_video mog2 knn t file cap).writerReleased = true := by
  have hread : cap.readAll = [] := by simp [Capture.readAll, h]
  rcases hsel : selectSubtractor mog2 knn t with _ | sub
  · simp [convert_video, loopResult, hsel, hread, h]
  · simp [convert_video, loopResult, hsel, hread, runLoop, h]

theorem unopened_source_silent_empty_run_witness :
    (Capture.opened ⟨false, [[4, 4]]⟩) = false ∧
      ((convert_video demoSub demoSub "KNN" "d.mp4"
            ⟨false, [[4, 4]]⟩).errorLog = none ∧
        (convert_video demoSub demoSub "KNN" "d.mp4"
            ⟨false, [[4, 4]]⟩).written = [] ∧
        (convert_video demoSub demoSub "KNN" "d.mp4"
            ⟨false, [[4, 4]]⟩).outputCreated = false ∧
        (convert_video demoSub demoSub "KNN" "d.mp4"
            ⟨false, [[4, 4]]⟩).raised = false ∧
        (convert_video demoSub demoSub "KNN" "d.mp4"
            ⟨false, [[4, 4]]⟩).capReleased = true ∧
        (convert_video demoSub demoSub "KNN" "d.mp4"
            ⟨false, [[4, 4]]⟩).writerReleased = true) :=
  ⟨by decide,
   unopened_source_silent_empty_run demoSub demoSub "KNN" "d.mp4"
     ⟨false, [[4, 4]]⟩ (by decide)⟩

/-- C8: the per-file outputs of a batch run do not depend on the worker
count, and each file's result is a function of the subtractor selector and
that file's own content alone (the batch outcome is literally the map of
`convert_video` over the files), since tasks share no state. -/
theorem runBatch_worker_count_irrelevant {S : Type} (mog2 knn : BGSub S)
    (t : String) (w1 w2 : Nat) (files : List (String × Capture)) :
    runBatch mog2 knn t w1 files = runBatch mog2 knn t w2 files ∧
      runBatch mog2 knn t w1 files
        = files.map (fun fc => (fc.1, convert_video mog2 knn t fc.1 fc.2)) :=
  ⟨rfl, rfl⟩

/-- C10: calling `convert_video` with a selector other than `"MOG2"` or
`"KNN"` on a readable source still terminates without raising: no
subtractor is created (the `if/elif` of lines 62-65 binds nothing), the
`NameError` raised at line 86 on the first frame is caught and logged as a
per-file error, the (empty) output file was already created at the
destination filename by line 68, and both handles are released. -/
theorem invalid_subtractor_name_error {S : Type} (mog2 knn : BGSub S)
    (t file : String) (cap : Capture)
    (h1 : t ≠ "MOG2") (h2 : t ≠ "KNN") (h3 : cap.opened = true)
    (h4 : cap.frames ≠ []) :
    (convert_video mog2 knn t file cap).subtractorsCreated = 0 ∧
      (convert_video mog2 knn t file cap).errorLog
        = some (file, "NameError: name 'subtractor' is not defined") ∧
      (convert_video mog2 knn t file cap).written = [] ∧
      (convert_video mog2 knn t file cap).outputCreated = true ∧
      (convert_video mog2 knn t file cap).raised = false ∧
      (convert_video mog2 knn t file cap).capReleased = true ∧
      (convert_video mog2 knn t file cap).writerReleased = true := by
  have hsel : selectSubtractor mog2 knn t = none := by
    simp [selectSubtractor, h1, h2]
  have hread : cap.readAll = cap.frames := by simp [Capture.readAll, h3]
  rcases hfr : cap.frames with _ | ⟨fr, rest⟩
  · exact absurd hfr h4
  · simp [convert_video, loopResult, hsel, hread, hfr, h3]

theorem invalid_subtractor_name_error_witness :
    ("GMG" : String) ≠ "MOG2" ∧ ("GMG" : String) ≠ "KNN" ∧
      (Capture.opened ⟨true, [[9]]⟩) = true ∧
      (Capture.frames ⟨true, [[9]]⟩) ≠ [] ∧
      ((convert_video demoSub demoSub "GMG" "e.mp4"
            ⟨true, [[9]]⟩).subtractorsCreated = 0 ∧
        (convert_video demoSub demoSub "GMG" "e.mp4" ⟨true, [[9]]⟩).errorLog
          = some ("e.mp4", "NameError: name 'subtractor' is not defined") ∧
        (convert_video demoSub demoSub "GMG" "e.mp4" ⟨true, [[9]]⟩).written
          = [] ∧
        (convert_video demoSub demoSub "GMG" "e.mp4"
            ⟨true, [[9]]⟩).outputCreated = true ∧
        (convert_video demoSub demoSub "GMG" "e.mp4" ⟨true, [[9]]⟩).raised
          = false ∧
        (convert_video demoSub demoSub "GMG" "e.mp4"
            ⟨true, [[9]]⟩).capReleased = true ∧
        (convert_video demoSub demoSub "GMG" "e.mp4"
            ⟨true, [[9]]⟩).writerReleased = true) :=
  ⟨by decide, by decide, by decide, by decide,
   invalid_subtractor_name_error demoSub demoSub "GMG" "e.mp4" ⟨true, [[9]]⟩
     (by decide) (by decide) (by decide) (by decide)⟩

/-! ### The batch orchestrator (`__main__`, lines 98-158) -/

/-- A filesystem path, as its list of components. -/
abbrev Path := List String

/-- A filesystem: the list of existing paths, all rooted in the working
directory that line 133 `os.chdir`s into.  An entry `[n]` is a top-level
file or directory named `n`; `[d, n]` lives inside directory `d`; etc. -/
abbrev FS := List Path

/-- `os.listdir()` (line 134): the top-level names. -/
def topLevel (fs : FS) : List String :=
  fs.filterMap fun p =>
    match p with
    | [n] => some n
    | _ => none

/-- Renaming the top-level entry `src` to the path `dst`: every path rooted
at `src` is re-rooted at `dst`. -/
def movePath (fs : FS) (src : String) (dst : Path) : FS :=
  fs.map fun p =>
    match p with
    | [] => []
    | n :: rest => if n = src then dst ++ rest else n :: rest

/-- One `mv SRC DST` invocation on top-level names (lines 136 and 140-141
run `mv` through a shell), with GNU `mv` semantics: if `SRC` does not exist
the command fails; if `DST` exists (as a directory), `SRC` is moved inside
it via `rename(2)` to `DST/SRC` — this fails with `ENOTEMPTY` when
`DST/SRC` is a nonempty directory, and silently replaces `DST/SRC` when it
is empty or absent; otherwise `SRC` is renamed to `DST`.  Returns the new
filesystem and the command's success. -/
def mvEntry (fs : FS) (src dst : String) : FS × Bool :=
  if [src] ∈ fs then
    if [dst] ∈ fs then
      if fs.any fun p => decide (p.take 2 = [dst, src] ∧ 2 < p.length) then
        (fs, false)
      else
        (movePath (fs.filter (· ≠ [dst, src])) src [dst, src], true)
    else (movePath fs src [dst], true)
  else (fs, false)

/-- The shell glob `*.mp4` of line 140 on a list of characters: the name
must not start with a dot (globs skip hidden entries) and must end with the
literal suffix `.mp4` (equivalently, its reverse starts with `4pm.`). -/
def globMp4Chars : List Char → Bool
  | [] => false
  | c :: cs =>
    decide (c ≠ '.') && decide ((c :: cs).reverse.take 4 = ['4', 'p', 'm', '.'])

/-- The shell glob `*.mp4` of line 140 on a name. -/
def globMp4 (s : String) : Bool := globMp4Chars s.data

/-- Python `re.search(r".mp4$", file)` of line 143: the `.` is a wildcard
for any character except a newline, and `$` matches at the end of the
string or just before one trailing newline.  So the pattern matches iff
some suffix of the name has the shape `c, 'm', 'p', '4'` with `c ≠ '\n'`,
followed by nothing or by a single final newline. -/
def reSearchDotMp4 (s : String) : Bool :=
  s.data.tails.any fun t =>
    match t with
    | c :: 'm' :: 'p' :: '4' :: rest =>
      decide (c ≠ '\n') && decide (rest = [] ∨ rest = ['\n'])
    | _ => false

/-- The claim-side filter: names ending with the case-sensitive literal
suffix `.mp4`. -/
def hasMp4Suffix (s : String) : Bool :=
  decide (s.data.reverse.take 4 = ['4', 'p', 'm', '.'])

/-- Observable orchestrator events, in program order: relocating a file
into the backup directory (line 141) and submitting a conversion task
(line 154). -/
inductive Event
  | move (name : String)
  | submit (name : String)
deriving DecidableEq

/-- Observable outcome of an orchestrator run that reached the submission
phase. -/
structure MainRun where
  /-- The filesystem after setup and relocation. -/
  fs : FS
  /-- Exit status of `mv dest dest_old` (line 136), when it ran (`none`
  when no entry named `dest` existed).  `subprocess.run` is called without
  `check=True`, so the program ignores this status. -/
  mvDestStatus : Option Bool
  /-- Exit status of `mv *.mp4 dest` (line 141); also ignored. -/
  mvMp4Ok : Bool
  /-- Names moved into the backup directory. -/
  moved : List String
  /-- `file_list` as submitted to the pool (lines 143 and 153-156). -/
  submitted : List String
  /-- Move and submission events, in program order. -/
  trace : List Event
deriving DecidableEq

/-- Lines 134-136: list the directory once; if `dest` appears in the
listing, run `mv dest dest_old` through the shell (exit status ignored). -/
def setupFs (fs0 : FS) (dest : String) : FS × Option Bool :=
  if dest ∈ topLevel fs0 then
    let r := mvEntry fs0 dest (dest ++ "_old")
    (r.1, some r.2)
  else (fs0, none)

/-- Lines 140-156, after a successful `os.mkdir(dest)` (line 138): glob
`*.mp4` over the current directory contents (which now include the fresh
`dest`), move each match into `dest`, re-derive `file_list` from the
pre-move listing via `re.search(r".mp4$", ...)` and `list(set(...))`
(modelled by `dedup`; Python's set iteration order is unspecified and only
membership is used below), and submit one task per entry. -/
def mkMainRun (fs0 : FS) (dest : String) : MainRun :=
  let file_list := topLevel fs0
  let s1 := setupFs fs0 dest
  let fs2 := [dest] :: s1.1
  let gmatches := (topLevel fs2).filter globMp4
  let moves := gmatches.filter (· ≠ dest)
  let fs3 := moves.foldl (fun fs m => (mvEntry fs m dest).1) fs2
  let submitted := (file_list.filter reSearchDotMp4).dedup
  { fs := fs3
    mvDestStatus := s1.2
    mvMp4Ok := !gmatches.isEmpty && (moves == gmatches)
    moved := moves
    submitted := submitted
    trace := moves.map Event.move ++ submitted.map Event.submit }

/-- Lines 133-157 of `__main__`: the setup phase (listing, optional rename
of a pre-existing `dest`, then `os.mkdir(dest)`), followed by relocation
and submission.  `os.mkdir` raises `FileExistsError` when `dest` still
exists — the only uncaught exception in the orchestrator — which halts the
run before any relocation of `.mp4` files or task submission. -/
def mainRun (fs0 : FS) (dest : String) : Except String MainRun :=
  if [dest] ∈ (setupFs fs0 dest).1 then .error "FileExistsError"
  else .ok (mkMainRun fs0 dest)

/-- The orchestrator outcome, defaulting to the empty record when the run
halted with an exception (used to state closed counterexamples). -/
def runOf (fs0 : FS) (dest : String) : MainRun :=
  (mainRun fs0 dest).toOption.getD ⟨[], none, false, [], [], []⟩

theorem mem_topLevel {fs : FS} {n : String} : n ∈ topLevel fs ↔ [n] ∈ fs := by
  constructor
  · intro h
    rw [topLevel, List.mem_filterMap] at h
    obtain ⟨p, hp, he⟩ := h
    rcases p with _ | ⟨x, _ | ⟨y, r⟩⟩
    · simp at he
    · simp only [Option.some.injEq] at he
      subst he
      exact hp
    · simp at he
  · intro h
    rw [topLevel, List.mem_filterMap]
    exact ⟨[n], h, rfl⟩

theorem globMp4Chars_old (l : List Char) :
    globMp4Chars (l ++ ['_', 'o', 'l', 'd']) = false := by
  rcases l with _ | ⟨c, cs⟩
  · decide
  · have h : ((c :: cs) ++ ['_', 'o', 'l', 'd']).reverse.take 4
        = ['d', 'l', 'o', '_'] := by
      rw [List.reverse_append]
      rfl
    have h2 : (c :: (cs ++ ['_', 'o', 'l', 'd'])).reverse.take 4
        = ['d', 'l', 'o', '_'] := h
    simp [globMp4Chars, h2]

theorem globMp4_append_old (d : String) : globMp4 (d ++ "_old") = false := by
  have h : (d ++ "_old").data = d.data ++ ['_', 'o', 'l', 'd'] := by
    rw [String.data_append]
  rw [globMp4, h]
  exact globMp4Chars_old d.data

theorem reSearch_of_glob {s : String} (h : globMp4 s = true) :
    reSearchDotMp4 s = true := by
  rcases hd : s.data with _ | ⟨c, cs⟩
  · rw [globMp4, hd] at h
    simp [globMp4Chars] at h
  · rw [globMp4, hd] at h
    have htake : (c :: cs).reverse.take 4 = ['4', 'p', 'm', '.'] := by
      simp only [globMp4Chars, Bool.and_eq_true, decide_eq_true_eq] at h
      exact h.2
    have hpre : ['.', 'm', 'p', '4'].reverse <+: (c :: cs).reverse := by
      have := List.take_prefix 4 (c :: cs).reverse
      rw [htake] at this
      exact this
    have hsuf : ['.', 'm', 'p', '4'] <:+ (c :: cs) :=
      List.reverse_prefix.mp hpre
    rw [reSearchDotMp4, hd]
    rw [List.any_eq_true]
    refine ⟨['.', 'm', 'p', '4'], ?_, by decide⟩
    rw [List.mem_tails]
    exact hsuf

theorem movePath_mem_cons {fs : FS} {src d x : String} {ds rest : Path}
    (hx1 : x ≠ src) (hx2 : x ≠ d) :
    (x :: rest) ∈ movePath fs src (d :: ds) ↔ (x :: rest) ∈ fs := by
  rw [movePath, List.mem_map]
  constructor
  · rintro ⟨p, hp, he⟩
    rcases p with _ | ⟨n, r⟩
    · simp at he
    · simp only [] at he
      by_cases hn : n = src
      · rw [if_pos hn] at he
        rw [List.cons_append] at he
        injection he with he1 _
        exact absurd he1.symm hx2
      · rw [if_neg hn] at he
        rwa [he] at hp
  · intro hmem
    refine ⟨x :: rest, hmem, ?_⟩
    simp [hx1]

theorem movePath_topLevel {fs : FS} {src d n : String} {ds : Path}
    (h : [n] ∈ movePath fs src (d :: ds)) : (n = d ∧ ds = []) ∨ [n] ∈ fs := by
  rw [movePath, List.mem_map] at h
  obtain ⟨p, hp, he⟩ := h
  rcases p with _ | ⟨m, r⟩
  · simp at he
  · simp only [] at he
    by_cases hm : m = src
    · rw [if_pos hm] at he
      rw [List.cons_append] at he
      injection he with he1 he2
      left
      exact ⟨he1.symm, (List.append_eq_nil.mp he2).1⟩
    · rw [if_neg hm] at he
      right
      rwa [he] at hp

theorem mvEntry_mem_cons {fs : FS} {src dst x : String} {rest : Path}
    (hx1 : x ≠ src) (hx2 : x ≠ dst) :
    (x :: rest) ∈ (mvEntry fs src dst).1 ↔ (x :: rest) ∈ fs := by
  rw [mvEntry]
  split_ifs with h1 h2 h3
  · rfl
  · rw [movePath_mem_cons hx1 hx2]
    rw [List.mem_filter]
    constructor
    · exact fun h => h.1
    · intro h
      refine ⟨h, ?_⟩
      simp only [decide_not, Bool.not_eq_eq_eq_not, Bool.not_true,
        decide_eq_false_iff_not]
      intro hc
      injection hc with hc1 _
      exact hx2 hc1
  · exact movePath_mem_cons hx1 hx2
  · rfl

theorem mvEntry_topLevel {fs : FS} {src dst n : String}
    (h : n ∈ topLevel (mvEntry fs src dst).1) : n = dst ∨ n ∈ topLevel fs := by
  rw [mem_topLevel] at h
  rw [mvEntry] at h
  split_ifs at h with h1 h2 h3
  · exact Or.inr (mem_topLevel.mpr h)
  · rcases movePath_topLevel h with ⟨hd, hds⟩ | hmem
    · exact absurd hds (List.cons_ne_nil _ _)
    · exact Or.inr (mem_topLevel.mpr (List.mem_filter.mp hmem).1)
  · rcases movePath_topLevel h with ⟨hd, _⟩ | hmem
    · exact Or.inl hd
    · exact Or.inr (mem_topLevel.mpr hmem)
  · exact Or.inr (mem_topLevel.mpr h)

theorem mvEntry_fail_eq {fs : FS} {src dst : String}
    (h : (mvEntry fs src dst).2 = false) : (mvEntry fs src dst).1 = fs := by
  rw [mvEntry] at h ⊢
  split_ifs at h ⊢
  · rfl
  · rfl

theorem foldl_mvEntry_mem {x dest : String} {rest : Path} (hx : x ≠ dest) :
    ∀ (ms : List String) (fs : FS), (∀ m ∈ ms, x ≠ m) →
      ((x :: rest) ∈ ms.foldl (fun fs m => (mvEntry fs m dest).1) fs
        ↔ (x :: rest) ∈ fs) := by
  intro ms
  induction ms with
  | nil => intro fs _; rfl
  | cons m ms ih =>
    intro fs hm
    rw [List.foldl_cons]
    rw [ih _ fun m' hmem => hm m' (List.mem_cons_of_mem m hmem)]
    exact mvEntry_mem_cons (hm m (List.mem_cons_self m ms)) hx

theorem mkMainRun_submitted_mem (fs0 : FS) (dest n : String) :
    n ∈ (mkMainRun fs0 dest).submitted
      ↔ (n ∈ topLevel fs0 ∧ reSearchDotMp4 n = true) := by
  show n ∈ ((topLevel fs0).filter reSearchDotMp4).dedup ↔ _
  rw [List.mem_dedup, List.mem_filter]

theorem mkMainRun_submitted_nodup (fs0 : FS) (dest : String) :
    (mkMainRun fs0 dest).submitted.Nodup :=
  List.nodup_dedup _

theorem mkMainRun_moved_spec (fs0 : FS) (dest : String) :
    ∀ n ∈ (mkMainRun fs0 dest).moved,
      globMp4 n = true ∧ n ≠ dest ∧ n ∈ topLevel fs0 := by
  intro n hn
  have hn' : n ∈ ((topLevel ([dest] :: (setupFs fs0 dest).1)).filter
      globMp4).filter (· ≠ dest) := hn
  rw [List.mem_filter, List.mem_filter] at hn'
  obtain ⟨⟨htop, hglob⟩, hne⟩ := hn'
  have hne' : n ≠ dest := by simpa using hne
  refine ⟨hglob, hne', ?_⟩
  have htop' : n ∈ dest :: topLevel (setupFs fs0 dest).1 := by
    simpa [topLevel] using htop
  have htop2 : n ∈ topLevel (setupFs fs0 dest).1 := by
    rcases List.mem_cons.mp htop' with he | hm
    · exact absurd he hne'
    · exact hm
  rw [setupFs] at htop2
  split_ifs at htop2 with hd
  · rcases mvEntry_topLevel htop2 with he | hm
    · exfalso
      rw [he] at hglob
      rw [globMp4_append_old] at hglob
      exact Bool.false_ne_true hglob
    · exact hm
  · exact htop2

theorem mkMainRun_moved_mem (fs0 : FS) (dest n : String) :
    n ∈ (mkMainRun fs0 dest).moved
      ↔ (n ∈ topLevel fs0 ∧ globMp4 n = true ∧ n ≠ dest) := by
  constructor
  · intro h
    obtain ⟨hg, hne, ht⟩ := mkMainRun_moved_spec fs0 dest n h
    exact ⟨ht, hg, hne⟩
  · rintro ⟨htop, hglob, hne⟩
    have hnold : n ≠ dest ++ "_old" := by
      intro he
      rw [he, globMp4_append_old] at hglob
      exact Bool.false_ne_true hglob
    have h1 : [n] ∈ (setupFs fs0 dest).1 := by
      rw [setupFs]
      split_ifs with hd
      · show [n] ∈ (mvEntry fs0 dest (dest ++ "_old")).1
        exact (mvEntry_mem_cons hne hnold).mpr (mem_topLevel.mp htop)
      · exact mem_topLevel.mp htop
    show n ∈ ((topLevel ([dest] :: (setupFs fs0 dest).1)).filter
        globMp4).filter (· ≠ dest)
    rw [List.mem_filter, List.mem_filter]
    refine ⟨⟨?_, hglob⟩, ?_⟩
    · rw [mem_topLevel]
      exact List.mem_cons_of_mem _ h1
    · simp [hne]

theorem mkMainRun_trace (fs0 : FS) (dest : String) :
    (mkMainRun fs0 dest).trace
      = (mkMainRun fs0 dest).moved.map Event.move
        ++ (mkMainRun fs0 dest).submitted.map Event.submit := rfl

theorem mainRun_ok {fs0 : FS} {dest : String} {r : MainRun}
    (h : mainRun fs0 dest = .ok r) : r = mkMainRun fs0 dest := by
  rw [mainRun] at h
  split_ifs at h
  injection h with h
  exact h.symm

/-- C2, counterexample: with initial listing `["amp4"]` (a file whose name
ends in `mp4` but not in `.mp4`), the orchestrator submits `"amp4"` as a
conversion task — `re.search(r".mp4$", "amp4")` matches because the `.` in
the pattern is an unescaped wildcard — while the set of filenames with the
case-sensitive literal suffix `.mp4` is empty, as is the set of files the
glob `*.mp4` moves.  So the submitted set equals neither of the other two
sets the claim equates. -/
theorem submitted_not_suffix_filtered :
    (runOf [["amp4"]] "unsubtracted_videos").submitted = ["amp4"] ∧
      hasMp4Suffix "amp4" = false ∧
      (runOf [["amp4"]] "unsubtracted_videos").moved = [] := by
  refine ⟨by decide, by decide, by decide⟩

/-- C2, amended: the submitted set is exactly the deduplicated initial
listing filtered by the regex `.mp4$` (any non-newline character followed
by `mp4` at the end); the moved set is exactly the initial-listing entries
matching the glob `*.mp4` (non-hidden names with the literal `.mp4`
suffix) other than the backup-directory name itself (which `mv` cannot
move into itself); every moved file is also submitted (but not conversely,
see the counterexample); and in the event trace the move phase precedes
every submission. -/
theorem moved_and_submitted_sets (fs0 : FS) (dest : String) (r : MainRun)
    (hrun : mainRun fs0 dest = .ok r) :
    (∀ n, n ∈ r.submitted ↔ (n ∈ topLevel fs0 ∧ reSearchDotMp4 n = true)) ∧
      (∀ n, n ∈ r.moved
        ↔ (n ∈ topLevel fs0 ∧ globMp4 n = true ∧ n ≠ dest)) ∧
      (∀ n ∈ r.moved, n ∈ r.submitted) ∧
      (∀ e ∈ r.trace.take r.moved.length, ∃ n, e = Event.move n) ∧
      (∀ e ∈ r.trace.drop r.moved.length, ∃ n, e = Event.submit n) := by
  have hr := mainRun_ok hrun
  subst hr
  refine ⟨fun n => mkMainRun_submitted_mem fs0 dest n,
    fun n => mkMainRun_moved_mem fs0 dest n, ?_, ?_, ?_⟩
  · intro n hn
    obtain ⟨hg, _, ht⟩ := mkMainRun_moved_spec fs0 dest n hn
    exact (mkMainRun_submitted_mem fs0 dest n).mpr ⟨ht, reSearch_of_glob hg⟩
  · intro e he
    rw [mkMainRun_trace] at he
    have hlen : ((mkMainRun fs0 dest).moved.map Event.move).length
        = (mkMainRun fs0 dest).moved.length := List.length_map _ _
    rw [← hlen, List.take_left] at he
    obtain ⟨n, _, hne⟩ := List.mem_map.mp he
    exact ⟨n, hne.symm⟩
  · intro e he
    rw [mkMainRun_trace] at he
    have hlen : ((mkMainRun fs0 dest).moved.map Event.move).length
        = (mkMainRun fs0 dest).moved.length := List.length_map _ _
    rw [← hlen, List.drop_left] at he
    obtain ⟨n, _, hne⟩ := List.mem_map.mp he
    exact ⟨n, hne.symm⟩

theorem moved_and_submitted_sets_witness :
    mainRun [["a.mp4"]] "uv" = .ok (runOf [["a.mp4"]] "uv") ∧
      ((∀ n, n ∈ (runOf [["a.mp4"]] "uv").submitted
          ↔ (n ∈ topLevel [["a.mp4"]] ∧ reSearchDotMp4 n = true)) ∧
        (∀ n, n ∈ (runOf [["a.mp4"]] "uv").moved
          ↔ (n ∈ topLevel [["a.mp4"]] ∧ globMp4 n = true ∧ n ≠ "uv")) ∧
        (∀ n ∈ (runOf [["a.mp4"]] "uv").moved,
          n ∈ (runOf [["a.mp4"]] "uv").submitted) ∧
        (∀ e ∈ (runOf [["a.mp4"]] "uv").trace.take
            (runOf [["a.mp4"]] "uv").moved.length, ∃ n, e = Event.move n) ∧
        (∀ e ∈ (runOf [["a.mp4"]] "uv").trace.drop
            (runOf [["a.mp4"]] "uv").moved.length, ∃ n, e = Event.submit n)) :=
  ⟨rfl, moved_and_submitted_sets [["a.mp4"]] "uv" (runOf [["a.mp4"]] "uv") rfl⟩

/-- C5, counterexample: a run (the third in a row, reachable from two prior
runs) in which the working directory holds both a backup directory `uv`
(containing `m.mp4`) and the previous run's `uv_old`.  The pre-existing
`uv` is not renamed aside with the `_old` suffix: `mv uv uv_old` moves it
*inside* the existing `uv_old`, so its content surfaces at
`uv_old/uv/m.mp4`, not at `uv_old/m.mp4`. -/
theorem preexisting_backup_not_renamed_aside :
    ["uv", "m.mp4"] ∈ ([["uv"], ["uv", "m.mp4"], ["uv_old"]] : FS) ∧
      ["uv_old", "m.mp4"]
        ∉ (runOf [["uv"], ["uv", "m.mp4"], ["uv_old"]] "uv").fs ∧
      ["uv_old", "uv", "m.mp4"]
        ∈ (runOf [["uv"], ["uv", "m.mp4"], ["uv_old"]] "uv").fs := by
  refine ⟨by decide, by decide, by decide⟩

/-- C5, amended: when a directory named `dest` pre-exists and no `dest_old`
entry exists, the whole pre-existing subtree is renamed to `dest_old`
(content-for-content) before the fresh backup directory is created, so the
prior backup survives intact; but when `dest_old` itself already exists,
`mv` instead moves the pre-existing directory inside it, at
`dest_old/dest` (see the counterexample), rather than renaming it with the
suffix. -/
theorem backup_dir_rename (fs0 : FS) (dest : String) (r : MainRun)
    (hrun : mainRun fs0 dest = .ok r) (hin : [dest] ∈ fs0)
    (hnold : ∀ p ∈ fs0, p.head? ≠ some (dest ++ "_old")) :
    ∀ rest : Path, (dest :: rest ∈ fs0 ↔ (dest ++ "_old") :: rest ∈ r.fs) := by
  intro rest
  have hr := mainRun_ok hrun
  subst hr
  have hne : dest ++ "_old" ≠ dest := by
    intro h
    have hlen := congrArg String.length h
    rw [String.length_append] at hlen
    have h4 : ("_old" : String).length = 4 := rfl
    omega
  have hdtop : dest ∈ topLevel fs0 := mem_topLevel.mpr hin
  have holdnot : [dest ++ "_old"] ∉ fs0 := fun h => hnold [dest ++ "_old"] h rfl
  have hsetup : (setupFs fs0 dest).1 = movePath fs0 dest [dest ++ "_old"] := by
    rw [setupFs, if_pos hdtop]
    show (mvEntry fs0 dest (dest ++ "_old")).1 = _
    rw [mvEntry, if_pos hin, if_neg holdnot]
  have h1 : dest :: rest ∈ fs0
      ↔ (dest ++ "_old") :: rest ∈ movePath fs0 dest [dest ++ "_old"] := by
    rw [movePath, List.mem_map]
    constructor
    · intro h
      exact ⟨dest :: rest, h, by simp⟩
    · rintro ⟨p, hp, he⟩
      rcases p with _ | ⟨m, r2⟩
      · simp at he
      · simp only [] at he
        by_cases hm : m = dest
        · rw [if_pos hm] at he
          have he' : (dest ++ "_old") :: r2 = (dest ++ "_old") :: rest := he
          injection he' with _ he2
          subst he2
          subst hm
          exact hp
        · rw [if_neg hm] at he
          injection he with he1 _
          exfalso
          subst he1
          exact hnold _ hp rfl
  have h2 : (dest ++ "_old") :: rest ∈ ([dest] :: (setupFs fs0 dest).1)
      ↔ (dest ++ "_old") :: rest ∈ (setupFs fs0 dest).1 := by
    rw [List.mem_cons]
    constructor
    · rintro (he | hm)
      · exfalso
        injection he with he1 _
        exact hne he1
      · exact hm
    · exact Or.inr
  have hfs : (mkMainRun fs0 dest).fs
      = ((mkMainRun fs0 dest).moved).foldl (fun fs m => (mvEntry fs m dest).1)
          ([dest] :: (setupFs fs0 dest).1) := rfl
  have h3 : (dest ++ "_old") :: rest ∈ (mkMainRun fs0 dest).fs
      ↔ (dest ++ "_old") :: rest ∈ ([dest] :: (setupFs fs0 dest).1) := by
    rw [hfs]
    refine foldl_mvEntry_mem hne _ _ ?_
    intro m hm
    obtain ⟨hg, _, _⟩ := mkMainRun_moved_spec fs0 dest m hm
    intro he
    rw [← he, globMp4_append_old] at hg
    exact Bool.false_ne_true hg
  rw [h3, h2, hsetup]
  exact h1

theorem backup_dir_rename_witness :
    mainRun [["uv"], ["uv", "v.mp4"]] "uv"
        = .ok (runOf [["uv"], ["uv", "v.mp4"]] "uv") ∧
      ["uv"] ∈ ([["uv"], ["uv", "v.mp4"]] : FS) ∧
      (∀ p ∈ ([["uv"], ["uv", "v.mp4"]] : FS), p.head? ≠ some ("uv" ++ "_old")) ∧
      (∀ rest : Path, ("uv" :: rest ∈ ([["uv"], ["uv", "v.mp4"]] : FS)
        ↔ ("uv" ++ "_old") :: rest ∈ (runOf [["uv"], ["uv", "v.mp4"]] "uv").fs)) :=
  ⟨rfl, by decide, by decide,
   backup_dir_rename [["uv"], ["uv", "v.mp4"]] "uv"
     (runOf [["uv"], ["uv", "v.mp4"]] "uv") rfl (by decide) (by decide)⟩

/-- C6, counterexample: a run in which the `.mp4` relocation step fails —
here `mv *.mp4` matches nothing, leaves the literal pattern in place and
exits nonzero, a failure ignored because `subprocess.run` is called without
`check=True` — yet a conversion task is still submitted (for `clip_mp4`,
which matches the `.mp4$` regex but not the glob). -/
theorem mp4_move_failure_still_submits :
    (runOf [["clip_mp4"]] "unsubtracted_videos").mvMp4Ok = false ∧
      (runOf [["clip_mp4"]] "unsubtracted_videos").submitted = ["clip_mp4"] := by
  refine ⟨by decide, by decide⟩

/-- C6, amended: only the rename half of the relocation step halts the
batch, and only indirectly: if `mv dest dest_old` fails, `dest` is still
present, so `os.mkdir(dest)` raises `FileExistsError` and the run halts
before any task submission.  A failure of the `mv *.mp4` half is silently
ignored and tasks are still submitted (see the counterexample). -/
theorem dest_rename_failure_halts (fs0 : FS) (dest : String)
    (hin : [dest] ∈ fs0)
    (hfail : (mvEntry fs0 dest (dest ++ "_old")).2 = false) :
    mainRun fs0 dest = .error "FileExistsError" := by
  have heq := mvEntry_fail_eq hfail
  have hcond : [dest] ∈ (setupFs fs0 dest).1 := by
    rw [setupFs, if_pos (mem_topLevel.mpr hin)]
    show [dest] ∈ (mvEntry fs0 dest (dest ++ "_old")).1
    rw [heq]
    exact hin
  rw [mainRun, if_pos hcond]

theorem dest_rename_failure_halts_witness :
    ["uv"] ∈ ([["uv"], ["uv_old"], ["uv_old", "uv"],
        ["uv_old", "uv", "x.mp4"]] : FS) ∧
      (mvEntry [["uv"], ["uv_old"], ["uv_old", "uv"],
          ["uv_old", "uv", "x.mp4"]] "uv" ("uv" ++ "_old")).2 = false ∧
      mainRun [["uv"], ["uv_old"], ["uv_old", "uv"],
          ["uv_old", "uv", "x.mp4"]] "uv" = .error "FileExistsError" :=
  ⟨by decide, by decide,
   dest_rename_failure_halts
     [["uv"], ["uv_old"], ["uv_old", "uv"], ["uv_old", "uv", "x.mp4"]] "uv"
     (by decide) (by decide)⟩

/-- C7: every run that reaches the submission phase submits each candidate
filename exactly once — the submitted list is duplicate-free (Python's
`list(set(...))` at line 143), each member occurs once, and a name is
submitted iff it is in the initial listing and matches the `.mp4$`
pattern — and each task, called with the configured variant (`MOG2` or
`KNN`, the only values argparse admits), creates exactly one subtractor
instance, which only that call uses. -/
theorem unique_submission_unique_subtractor {S : Type} (mog2 knn : BGSub S)
    (fs0 : FS) (dest t file : String) (cap : Capture) (r : MainRun)
    (hrun : mainRun fs0 dest = .ok r) (ht : t = "MOG2" ∨ t = "KNN") :
    r.submitted.Nodup ∧
      (∀ n ∈ r.submitted, r.submitted.count n = 1) ∧
      (∀ n, n ∈ r.submitted ↔ (n ∈ topLevel fs0 ∧ reSearchDotMp4 n = true)) ∧
      (convert_video mog2 knn t file cap).subtractorsCreated = 1 := by
  have hr := mainRun_ok hrun
  subst hr
  refine ⟨mkMainRun_submitted_nodup fs0 dest, ?_,
    fun n => mkMainRun_submitted_mem fs0 dest n, ?_⟩
  · intro n hn
    exact List.count_eq_one_of_mem (mkMainRun_submitted_nodup fs0 dest) hn
  · rcases ht with h | h <;> subst h <;> simp [convert_video, selectSubtractor]

theorem unique_submission_unique_subtractor_witness :
    mainRun [["b.mp4"]] "uv" = .ok (runOf [["b.mp4"]] "uv") ∧
      (("MOG2" : String) = "MOG2" ∨ ("MOG2" : String) = "KNN") ∧
      ((runOf [["b.mp4"]] "uv").submitted.Nodup ∧
        (∀ n ∈ (runOf [["b.mp4"]] "uv").submitted,
          (runOf [["b.mp4"]] "uv").submitted.count n = 1) ∧
        (∀ n, n ∈ (runOf [["b.mp4"]] "uv").submitted
          ↔ (n ∈ topLevel [["b.mp4"]] ∧ reSearchDotMp4 n = true)) ∧
        (convert_video demoSub demoSub "MOG2" "b.mp4"
            ⟨true, []⟩).subtractorsCreated = 1) :=
  ⟨rfl, Or.inl rfl,
   unique_submission_unique_subtractor demoSub demoSub [["b.mp4"]] "uv"
     "MOG2" "b.mp4" ⟨true, []⟩ (runOf [["b.mp4"]] "uv") rfl (Or.inl rfl)⟩

/-! ### The command-line interface (lines 105-131) -/

/-- The parsed argument record of line 131. -/
structure Args where
  path : String
  dest_dir : String
  max_workers : Int
  subtractor : String
deriving DecidableEq

/-- A command line: each of the four flags may be present or absent (all
four `add_argument` calls of lines 106-130 pass `required=False`). -/
structure CmdLine where
  path : Option String
  dest_dir : Option String
  max_workers : Option Int
  subtractor : Option String

/-- `argparse` behaviour for the parser of lines 105-131: an absent flag
takes its declared default (`"."`, `"unsubtracted_videos"`, `10`,
`"MOG2"`), and `--subtractor` is constrained by
`choices=["MOG2", "KNN"]` — any other value makes parsing fail with an
"invalid choice" error. -/
def parse_args (c : CmdLine) : Except String Args :=
  let sub := c.subtractor.getD "MOG2"
  if sub = "MOG2" ∨ sub = "KNN" then
    .ok { path := c.path.getD "."
          dest_dir := c.dest_dir.getD "unsubtracted_videos"
          max_workers := c.max_workers.getD 10
          subtractor := sub }
  else .error "invalid choice"

/-- Whether parsing succeeded. -/
def parseAccepts (e : Except String Args) : Bool :=
  match e with
  | .ok _ => true
  | .error _ => false

/-- C9: with no flags given, parsing succeeds and yields `--path "."`,
`--dest-dir "unsubtracted_videos"`, `--max-workers 10` and
`--subtractor "MOG2"`; and a given `--subtractor` value is accepted iff it
is `MOG2` or `KNN`. -/
theorem parse_args_defaults_and_choices :
    parse_args ⟨none, none, none, none⟩
        = .ok ⟨".", "unsubtracted_videos", 10, "MOG2"⟩ ∧
      (∀ s : String, parseAccepts (parse_args ⟨none, none, none, some s⟩)
        = (s == "MOG2" || s == "KNN")) := by
  refine ⟨rfl, ?_⟩
  intro s
  by_cases h1 : s = "MOG2"
  · subst h1
    rfl
  · by_cases h2 : s = "KNN"
    · subst h2
      rfl
    · simp [parse_args, parseAccepts, h1, h2]

end Convert
